import Mathlib

/-!
Shallow embedding of the sfeMovie Demuxer (src/pixelsort/video/Demuxer.cpp).

The demuxer owns the container read cursor, a table of streams keyed by the
container stream index, a pending-packet queue, an end-of-file flag, a
selected video stream reference, and an immutable-after-construction
duration.  Packets, ffmpeg calls and the mutex are modelled as follows:

  * the container cursor is the list of destination indices of the packets
    still ahead of it; `readPacket` pops the front and stamps a fresh serial
    on the packet it returns (each av_malloc'd AVPacket is a distinct
    resource, so serials are allocated at read time);
  * `readLog`, `delivered`, `freed` and `connEvents` are ghost audit trails
    recording every readPacket result, every pushEncodedData call, every
    av_free_packet call and every connect/disconnect call;
  * all operations run under the demuxer mutex, so each public operation is
    one atomic state transformation;
  * sf::Time durations are kept in integer container ticks: the float
    conversion secs + us/AV_TIME_BASE never cancels to zero for a nonzero
    tick count (secs and us share the sign), so comparing the tick count
    with 0 matches the code's comparison with sf::Time::Zero.
-/

namespace Sfe

/-- Media kinds distinguished by the demuxer: AVMediaTypeToMediaType maps
container video streams to Video and every other kind to Unknown. -/
inductive MediaType
  | Video
  | Unknown
deriving DecidableEq, Repr

/-- Transport status of the shared timer (sfe::Status). -/
inductive Status
  | Stopped
  | Playing
  | Paused
deriving DecidableEq, Repr

/-- One compressed packet checked out from the container: its embedded
destination stream index and the serial stamped when it was read. -/
structure Packet where
  streamIndex : Nat
  serial : Nat
deriving DecidableEq, Repr

/-- Modelled from the spec: the per-stream data the dispatch logic consults.
VideoStream.cpp is not among the sources; the spec describes a stream as
exposing isPassive, a media kind, and (because the demuxer stores streams in
std::set ordered by shared_ptr value) an allocation address. -/
structure StreamEntry where
  passive : Bool
  kind : MediaType
  addr : Nat
deriving DecidableEq, Repr

/-- Ghost record of VideoStream connect()/disconnect() calls. -/
inductive ConnEvent
  | connect (sid : Nat)
  | disconnect (sid : Nat)
deriving DecidableEq, Repr

/-- First-match lookup in an association list, the way std::map::find is
used on m_streams and m_ignoredStreams (keys are unique there). -/
def lookupA {α : Type} : List (Nat × α) → Nat → Option α
  | [], _ => none
  | (k, v) :: rest, i => if k = i then some v else lookupA rest i

/-- Decrement the entry of one key in a demand table. -/
def decDemand : List (Nat × Nat) → Nat → List (Nat × Nat)
  | [], _ => []
  | (k, v) :: rest, i => if k = i then (k, v - 1) :: rest else (k, v) :: decDemand rest i

/-- The Demuxer state: m_formatCtx's remaining packets, m_streams,
m_ignoredStreams, m_pendingDataForActiveStreams, m_eofReached,
m_connectedVideoStream, m_duration, plus the ghost audit trails. -/
structure DemuxState where
  container : List Nat
  nextSerial : Nat
  readLog : List Packet
  queue : List Packet
  eofReached : Bool
  streams : List (Nat × StreamEntry)
  ignored : List (Nat × String)
  selected : Option Nat
  demands : List (Nat × Nat)
  delivered : List (Nat × Packet)
  freed : List Packet
  connEvents : List ConnEvent
  duration : Int
deriving DecidableEq, Repr

/-- A demuxer state fresh out of construction: nothing read, queued,
delivered or freed yet. -/
def initState (container : List Nat) (streams : List (Nat × StreamEntry))
    (ignored : List (Nat × String)) (selected : Option Nat)
    (demands : List (Nat × Nat)) (duration : Int) : DemuxState :=
  ⟨container, 0, [], [], false, streams, ignored, selected, demands, [], [], [], duration⟩

/-- Modelled from the spec: Stream::canUsePacket, the stream's own matching
predicate, matches a packet by its embedded stream identifier. -/
def canUsePacket (sid : Nat) (p : Packet) : Bool :=
  p.streamIndex == sid

/-- Modelled from the spec: Stream::needsMoreData, as a pending-demand
counter per stream that is decremented each time a packet is pushed. -/
def needsMoreData (st : DemuxState) (sid : Nat) : Bool :=
  match lookupA st.demands sid with
  | some n => 0 < n
  | none => false

/-- Modelled from the spec: Stream::pushEncodedData accepts the packet;
we log the delivery and satisfy one unit of the target stream's demand. -/
def pushEncodedData (st : DemuxState) (sid : Nat) (p : Packet) : DemuxState :=
  { st with delivered := st.delivered ++ [(sid, p)], demands := decDemand st.demands sid }

/-- Demuxer::queueEncodedData: append the packet to the pending queue. -/
def queueEncodedData (st : DemuxState) (p : Packet) : DemuxState :=
  { st with queue := st.queue ++ [p] }

/-- Demuxer::flushBuffers: free every pending packet and clear the queue. -/
def flushBuffers (st : DemuxState) : DemuxState :=
  { st with freed := st.freed ++ st.queue, queue := [] }

/-- Demuxer::resetEndOfFileStatus. -/
def resetEndOfFileStatus (st : DemuxState) : DemuxState :=
  { st with eofReached := false }

/-- Demuxer::readPacket: av_read_frame on the sequential cursor; on success
the fresh AVPacket gets a fresh serial, on failure (end of data) returns
none with the state unchanged. -/
def readPacket (st : DemuxState) : Option Packet × DemuxState :=
  match st.container with
  | [] => (none, st)
  | i :: rest =>
      (some ⟨i, st.nextSerial⟩,
        { st with container := rest, nextSerial := st.nextSerial + 1,
                  readLog := st.readLog ++ [⟨i, st.nextSerial⟩] })

/-- Demuxer::getSelectedVideoStream. -/
def getSelectedVideoStream (st : DemuxState) : Option Nat :=
  st.selected

/-- Demuxer::gatherQueuedPacketForStream: remove and return the first queued
packet the stream can use; the rest of the queue keeps its order. -/
def gatherQueuedPacketForStream (sid : Nat) : List Packet → Option Packet × List Packet
  | [] => (none, [])
  | p :: rest =>
      if canUsePacket sid p then (some p, rest)
      else
        let r := gatherQueuedPacketForStream sid rest
        (r.1, p :: r.2)

/-- Demuxer::distributePacket: look the destination up in m_streams; if it
is the selected video stream, push to it when it is the requester or is
passive, otherwise queue the packet; in both cases report acceptance.  A
missing destination or a non-selected destination is rejected. -/
def distributePacket (st : DemuxState) (p : Packet) (req : Nat) : Bool × DemuxState :=
  match lookupA st.streams p.streamIndex with
  | none => (false, st)
  | some entry =>
      if getSelectedVideoStream st = some p.streamIndex then
        if p.streamIndex == req || entry.passive then
          (true, pushEncodedData st p.streamIndex p)
        else
          (true, queueEncodedData st p)
      else (false, st)

/-- The body of feedStream's rejection handling: a packet distributePacket
does not accept is freed on the spot (av_free_packet + av_free). -/
def distributeOrFree (st : DemuxState) (p : Packet) (req : Nat) : DemuxState :=
  let r := distributePacket st p req
  if r.1 then r.2 else { r.2 with freed := r.2.freed ++ [p] }

/-- The feedStream loop guard: not at end of file and the requester still
needs data. -/
def feedCond (st : DemuxState) (req : Nat) : Bool :=
  !st.eofReached && needsMoreData st req

/-- One iteration of the feedStream loop: gather a queued packet for the
requester, otherwise read from the container; a failed read sets the
end-of-file flag, an obtained packet is distributed or freed. -/
def feedStep (req : Nat) (st : DemuxState) : DemuxState :=
  match gatherQueuedPacketForStream req st.queue with
  | (some p, q') => distributeOrFree { st with queue := q' } p req
  | (none, _) =>
      match readPacket st with
      | (none, st') => { st' with eofReached := true }
      | (some p, st') => distributeOrFree st' p req

/-- The feedStream while-loop, with fuel.  `feedStream` supplies fuel that
provably outlasts the loop, so the fueled unfolding is exactly the loop. -/
def feedLoop : Nat → Nat → DemuxState → DemuxState
  | 0, _, st => st
  | fuel + 1, req, st =>
      if feedCond st req then feedLoop fuel req (feedStep req st) else st

/-- Termination measure of the feed loop: packets ahead of the cursor, plus
queued packets the requester can use, plus one while end of file is not
reached.  Every iteration with a true guard strictly decreases it. -/
def feedMeasure (req : Nat) (st : DemuxState) : Nat :=
  st.container.length + (st.queue.filter (canUsePacket req)).length +
    (if st.eofReached then 0 else 1)

/-- Demuxer::feedStream: loop while not at end of file and the requester
needs data. -/
def feedStream (req : Nat) (st : DemuxState) : DemuxState :=
  feedLoop (st.container.length + st.queue.length + 2) req st

/-- Demuxer::selectVideoStream: only legal while the timer is Stopped
(CHECK throws before any state is touched otherwise); a change of selection
disconnects the previous stream, connects the new one and updates
m_connectedVideoStream. -/
def selectVideoStream (status : Status) (cand : Option Nat) (st : DemuxState) :
    Except Unit DemuxState :=
  if status = Status.Stopped then
    Except.ok
      (if cand = st.selected then st
       else
         let ev1 := match st.selected with
           | some o => [ConnEvent.disconnect o]
           | none => []
         let ev2 := match cand with
           | some c => [ConnEvent.connect c]
           | none => []
         { st with selected := cand, connEvents := st.connEvents ++ ev1 ++ ev2 })
  else Except.error ()

/-- Demuxer::getStreamsOfType: the table entries of the given kind.  The
table is iterated in key order (std::map); the resulting std::set is ordered
by shared_ptr value, i.e. by allocation address. -/
def getStreamsOfType (t : MediaType) (st : DemuxState) : List (Nat × StreamEntry) :=
  st.streams.filter (fun kv => kv.2.kind == t)

/-- The least element of the std::set of streams: minimal allocation
address (shared_ptr owner ordering), first entry winning ties. -/
def minByAddr : List (Nat × StreamEntry) → Option (Nat × StreamEntry)
  | [] => none
  | x :: xs =>
      some (match minByAddr xs with
        | none => x
        | some y => if y.2.addr < x.2.addr then y else x)

/-- Demuxer::selectFirstVideoStream: if any video stream exists, select
the one the std::set yields first (least shared_ptr value). -/
def selectFirstVideoStream (status : Status) (st : DemuxState) : Except Unit DemuxState :=
  match minByAddr (getStreamsOfType MediaType.Video st) with
  | none => Except.ok st
  | some kv => selectVideoStream status (some kv.1) st

/-- Demuxer::willSeek: reset the end-of-file flag, flush the pending queue,
then ask the container to seek.  Both seek branches only differ in logging;
a failed seek is logged and the cursor lands wherever the container put it,
modelled by the arbitrary `landing` packet list. -/
def willSeek (seekByPts : Bool) (seekErr : Int) (landing : List Nat)
    (st : DemuxState) : DemuxState :=
  let st1 := flushBuffers (resetEndOfFileStatus st)
  { st1 with container := landing }

/-- Demuxer::getDuration. -/
def getDuration (st : DemuxState) : Int :=
  st.duration

/-- Demuxer::didReachEndOfFile. -/
def didReachEndOfFile (st : DemuxState) : Bool :=
  st.eofReached

/-- The public operations that touch the packet-flow state after
construction: feedStream (also reached through requestMoreData), the
flushBuffers done at teardown, and the willSeek timer notification. -/
inductive DemuxOp
  | feed (req : Nat)
  | flush
  | seek (byPts : Bool) (err : Int) (landing : List Nat)
deriving DecidableEq, Repr

/-- Apply one operation. -/
def applyOp (st : DemuxState) : DemuxOp → DemuxState
  | DemuxOp.feed req => feedStream req st
  | DemuxOp.flush => flushBuffers st
  | DemuxOp.seek b e l => willSeek b e l st

/-- Run a sequence of operations. -/
def runOps (st : DemuxState) : List DemuxOp → DemuxState
  | [] => st
  | op :: rest => runOps (applyOp st op) rest

/-- One container-reported elementary stream, as the construction loop sees
it: its codec type, a description used for the ignored table, whether the
VideoStream constructor throws (std::runtime_error), the AVStream duration
(none encodes AV_NOPTS_VALUE), and the stream attributes. -/
structure ContainerStreamInfo where
  codecType : MediaType
  desc : String
  initFails : Bool
  streamDuration : Option Int
  passive : Bool
  addr : Nat
deriving DecidableEq, Repr

/-- Demuxer::extractDurationFromStream: keep the duration already known if
nonzero, otherwise adopt the stream duration when it is not AV_NOPTS_VALUE. -/
def extractDurationFromStream (dur : Int) (sd : Option Int) : Int :=
  if dur ≠ 0 then dur
  else
    match sd with
    | some d => d
    | none => dur

/-- The stream-discovery loop of Demuxer::Demuxer: index i runs over the
container streams; a video stream whose construction succeeds is added to
m_streams and consulted for the duration while it is still unknown; a video
stream whose construction throws is caught and logged, inserting nothing; a
non-video stream is recorded in m_ignoredStreams. -/
def constructLoop : Nat → Int → List (Nat × StreamEntry) → List (Nat × String) →
    List ContainerStreamInfo → List (Nat × StreamEntry) × List (Nat × String) × Int
  | _, dur, tbl, ign, [] => (tbl, ign, dur)
  | i, dur, tbl, ign, cs :: rest =>
      match cs.codecType with
      | MediaType.Video =>
          if cs.initFails then constructLoop (i + 1) dur tbl ign rest
          else
            constructLoop (i + 1) (extractDurationFromStream dur cs.streamDuration)
              (tbl ++ [(i, ⟨cs.passive, MediaType.Video, cs.addr⟩)]) ign rest
      | MediaType.Unknown => constructLoop (i + 1) dur tbl (ign ++ [(i, cs.desc)]) rest

/-- Demuxer::Demuxer: opening or probing the container failing aborts
construction (CHECK0 throws); otherwise the duration is first taken from
container metadata when not AV_NOPTS_VALUE and the discovery loop runs over
every container-reported stream. -/
def construct (openOk probeOk : Bool) (containerDuration : Option Int)
    (css : List ContainerStreamInfo) :
    Except String (List (Nat × StreamEntry) × List (Nat × String) × Int) :=
  if !openOk then Except.error "error while opening media"
  else if !probeOk then Except.error "error while retreiving media information"
  else Except.ok (constructLoop 0 (containerDuration.getD 0) [] [] css)

/-- The duration resolution as the specification claim words it: the
container metadata when present, otherwise the first video stream's own
metadata, otherwise zero.  Stated for comparison with `construct`. -/
def durationPerSpecClaim (containerDuration : Option Int)
    (css : List ContainerStreamInfo) : Int :=
  match containerDuration with
  | some d => d
  | none =>
      match css.find? (fun cs => cs.codecType == MediaType.Video) with
      | some cs => cs.streamDuration.getD 0
      | none => 0

/-- First nonzero entry of a list of candidate durations, zero if none. -/
def firstNonzeroDuration : List Int → Int
  | [] => 0
  | d :: rest => if d ≠ 0 then d else firstNonzeroDuration rest

/-- The durations offered by the video streams the construction loop
actually loads, in discovery order, AV_NOPTS_VALUE counting as zero. -/
def loadedVideoDurations (css : List ContainerStreamInfo) : List Int :=
  (css.filter (fun cs => cs.codecType == MediaType.Video && !cs.initFails)).map
    (fun cs => cs.streamDuration.getD 0)

/-- The packets currently accounted for by the audit trails: delivered,
freed, or still pending in the queue. -/
def packetsOf (st : DemuxState) : List Packet :=
  st.delivered.map Prod.snd ++ st.freed ++ st.queue

/-! Case lemmas for distributePacket and distributeOrFree. -/

theorem distributePacket_no_entry (st : DemuxState) (p : Packet) (req : Nat)
    (h : lookupA st.streams p.streamIndex = none) :
    distributePacket st p req = (false, st) := by
  simp [distributePacket, h]

theorem distributePacket_not_selected (st : DemuxState) (p : Packet) (req : Nat)
    (e : StreamEntry) (h : lookupA st.streams p.streamIndex = some e)
    (hs : st.selected ≠ some p.streamIndex) :
    distributePacket st p req = (false, st) := by
  simp [distributePacket, getSelectedVideoStream, h, hs]

theorem distributePacket_deliver (st : DemuxState) (p : Packet) (req : Nat)
    (e : StreamEntry) (h : lookupA st.streams p.streamIndex = some e)
    (hs : st.selected = some p.streamIndex)
    (hd : p.streamIndex = req ∨ e.passive = true) :
    distributePacket st p req = (true, pushEncodedData st p.streamIndex p) := by
  have hd' : (p.streamIndex == req || e.passive) = true := by
    rcases hd with hd | hd <;> simp [hd]
  simp [distributePacket, getSelectedVideoStream, h, hs, hd']

theorem distributePacket_queue (st : DemuxState) (p : Packet) (req : Nat)
    (e : StreamEntry) (h : lookupA st.streams p.streamIndex = some e)
    (hs : st.selected = some p.streamIndex)
    (hd : ¬(p.streamIndex = req ∨ e.passive = true)) :
    distributePacket st p req = (true, queueEncodedData st p) := by
  push_neg at hd
  have h1 : (p.streamIndex == req) = false := by
    simpa using hd.1
  have h2 : e.passive = false := by
    simpa using hd.2
  simp [distributePacket, getSelectedVideoStream, h, hs, h1, h2]

theorem distributeOrFree_rejected (st : DemuxState) (p : Packet) (req : Nat)
    (h : distributePacket st p req = (false, st)) :
    distributeOrFree st p req = { st with freed := st.freed ++ [p] } := by
  simp [distributeOrFree, h]

theorem distributeOrFree_accepted (st st' : DemuxState) (p : Packet) (req : Nat)
    (h : distributePacket st p req = (true, st')) :
    distributeOrFree st p req = st' := by
  simp [distributeOrFree, h]

theorem distributePacket_rejected_state (st : DemuxState) (p : Packet) (req : Nat)
    (h : (distributePacket st p req).1 = false) :
    distributePacket st p req = (false, st) := by
  unfold distributePacket at h ⊢
  cases hl : lookupA st.streams p.streamIndex with
  | none => rfl
  | some e =>
      rw [hl] at h
      by_cases hs : getSelectedVideoStream st = some p.streamIndex
      · by_cases hd : (p.streamIndex == req || e.passive) = true <;> simp [hs, hd] at h
      · simp [hs]

/-- Every outcome of distributeOrFree is one of: free the packet, push it
to its destination, or queue it (and a queued packet never belongs to the
requester, since the requester branch of distributePacket takes priority). -/
theorem distributeOrFree_cases (st : DemuxState) (p : Packet) (req : Nat) :
    distributeOrFree st p req = { st with freed := st.freed ++ [p] } ∨
    (st.selected = some p.streamIndex ∧
      distributeOrFree st p req = pushEncodedData st p.streamIndex p) ∨
    (p.streamIndex ≠ req ∧ distributeOrFree st p req = queueEncodedData st p) := by
  cases hl : lookupA st.streams p.streamIndex with
  | none =>
      left
      exact distributeOrFree_rejected st p req (distributePacket_no_entry st p req hl)
  | some e =>
      by_cases hs : st.selected = some p.streamIndex
      · by_cases hd : p.streamIndex = req ∨ e.passive = true
        · right; left
          exact ⟨hs, distributeOrFree_accepted _ _ _ _ (distributePacket_deliver st p req e hl hs hd)⟩
        · right; right
          refine ⟨fun hne => hd (Or.inl hne), ?_⟩
          exact distributeOrFree_accepted _ _ _ _ (distributePacket_queue st p req e hl hs hd)
      · left
        exact distributeOrFree_rejected st p req (distributePacket_not_selected st p req e hl hs)

/-! Field preservation through distributeOrFree. -/

theorem distributeOrFree_container (st : DemuxState) (p : Packet) (req : Nat) :
    (distributeOrFree st p req).container = st.container := by
  rcases distributeOrFree_cases st p req with h | ⟨-, h⟩ | ⟨-, h⟩ <;>
    simp [h, pushEncodedData, queueEncodedData]

theorem distributeOrFree_readLog (st : DemuxState) (p : Packet) (req : Nat) :
    (distributeOrFree st p req).readLog = st.readLog := by
  rcases distributeOrFree_cases st p req with h | ⟨-, h⟩ | ⟨-, h⟩ <;>
    simp [h, pushEncodedData, queueEncodedData]

theorem distributeOrFree_nextSerial (st : DemuxState) (p : Packet) (req : Nat) :
    (distributeOrFree st p req).nextSerial = st.nextSerial := by
  rcases distributeOrFree_cases st p req with h | ⟨-, h⟩ | ⟨-, h⟩ <;>
    simp [h, pushEncodedData, queueEncodedData]

theorem distributeOrFree_selected (st : DemuxState) (p : Packet) (req : Nat) :
    (distributeOrFree st p req).selected = st.selected := by
  rcases distributeOrFree_cases st p req with h | ⟨-, h⟩ | ⟨-, h⟩ <;>
    simp [h, pushEncodedData, queueEncodedData]

theorem distributeOrFree_streams (st : DemuxState) (p : Packet) (req : Nat) :
    (distributeOrFree st p req).streams = st.streams := by
  rcases distributeOrFree_cases st p req with h | ⟨-, h⟩ | ⟨-, h⟩ <;>
    simp [h, pushEncodedData, queueEncodedData]

theorem distributeOrFree_eof (st : DemuxState) (p : Packet) (req : Nat) :
    (distributeOrFree st p req).eofReached = st.eofReached := by
  rcases distributeOrFree_cases st p req with h | ⟨-, h⟩ | ⟨-, h⟩ <;>
    simp [h, pushEncodedData, queueEncodedData]

theorem distributeOrFree_duration (st : DemuxState) (p : Packet) (req : Nat) :
    (distributeOrFree st p req).duration = st.duration := by
  rcases distributeOrFree_cases st p req with h | ⟨-, h⟩ | ⟨-, h⟩ <;>
    simp [h, pushEncodedData, queueEncodedData]

theorem distributeOrFree_freed_mono (st : DemuxState) (p : Packet) (req : Nat) :
    ∃ l, (distributeOrFree st p req).freed = st.freed ++ l := by
  rcases distributeOrFree_cases st p req with h | ⟨-, h⟩ | ⟨-, h⟩
  · exact ⟨[p], by simp [h]⟩
  · exact ⟨[], by simp [h, pushEncodedData]⟩
  · exact ⟨[], by simp [h, queueEncodedData]⟩

/-! Characterization of gatherQueuedPacketForStream. -/

theorem gather_eq_none (sid : Nat) (q : List Packet)
    (h : (gatherQueuedPacketForStream sid q).1 = none) :
    (gatherQueuedPacketForStream sid q).2 = q ∧ ∀ x ∈ q, canUsePacket sid x = false := by
  induction q with
  | nil => simp [gatherQueuedPacketForStream]
  | cons p rest ih =>
      by_cases hc : canUsePacket sid p
      · simp [gatherQueuedPacketForStream, hc] at h
      · simp only [gatherQueuedPacketForStream, hc, if_false, Bool.false_eq_true] at h ⊢
        rcases ih h with ⟨h1, h2⟩
        refine ⟨by simp [h1], ?_⟩
        intro x hx
        rcases List.mem_cons.mp hx with hx | hx
        · simpa [hx] using hc
        · exact h2 x hx

theorem gather_eq_some (sid : Nat) (q : List Packet) (p : Packet)
    (h : (gatherQueuedPacketForStream sid q).1 = some p) :
    ∃ l r, q = l ++ p :: r ∧ (gatherQueuedPacketForStream sid q).2 = l ++ r ∧
      canUsePacket sid p = true ∧ ∀ x ∈ l, canUsePacket sid x = false := by
  induction q with
  | nil => simp [gatherQueuedPacketForStream] at h
  | cons x rest ih =>
      by_cases hc : canUsePacket sid x
      · simp only [gatherQueuedPacketForStream, hc, if_true] at h ⊢
        cases h
        exact ⟨[], rest, by simp, by simp, hc, by simp⟩
      · simp only [gatherQueuedPacketForStream, hc, if_false, Bool.false_eq_true] at h ⊢
        rcases ih h with ⟨l, r, h1, h2, h3, h4⟩
        refine ⟨x :: l, r, by simp [h1], by simp [h2], h3, ?_⟩
        intro y hy
        rcases List.mem_cons.mp hy with hy | hy
        · simpa [hy] using hc
        · exact h4 y hy

/-- The three shapes of a feed-loop iteration: a queued packet is gathered
and dispatched, or the container is exhausted and the end-of-file flag is
set, or the next container packet is read and dispatched. -/
theorem feedStep_shape (req : Nat) (st : DemuxState) :
    (∃ p q', gatherQueuedPacketForStream req st.queue = (some p, q') ∧
        feedStep req st = distributeOrFree { st with queue := q' } p req) ∨
    ((gatherQueuedPacketForStream req st.queue).1 = none ∧ st.container = [] ∧
        feedStep req st = { st with eofReached := true }) ∨
    (∃ i rest, (gatherQueuedPacketForStream req st.queue).1 = none ∧
        st.container = i :: rest ∧
        feedStep req st = distributeOrFree
          { st with container := rest, nextSerial := st.nextSerial + 1,
                    readLog := st.readLog ++ [⟨i, st.nextSerial⟩] }
          ⟨i, st.nextSerial⟩ req) := by
  rcases hg : gatherQueuedPacketForStream req st.queue with ⟨o, q'⟩
  cases o with
  | some p =>
      left
      exact ⟨p, q', rfl, by simp [feedStep, hg]⟩
  | none =>
      cases hc : st.container with
      | nil =>
          right; left
          exact ⟨rfl, rfl, by simp [feedStep, hg, readPacket, hc]⟩
      | cons i rest =>
          right; right
          exact ⟨i, rest, rfl, rfl, by simp [feedStep, hg, readPacket, hc]⟩

/-! Field preservation through one feed iteration and through the loop. -/

theorem feedStep_selected (req : Nat) (st : DemuxState) :
    (feedStep req st).selected = st.selected := by
  rcases feedStep_shape req st with ⟨p, q', _, h⟩ | ⟨_, _, h⟩ | ⟨i, rest, _, _, h⟩ <;>
    rw [h] <;> simp [distributeOrFree_selected]

theorem feedStep_streams (req : Nat) (st : DemuxState) :
    (feedStep req st).streams = st.streams := by
  rcases feedStep_shape req st with ⟨p, q', _, h⟩ | ⟨_, _, h⟩ | ⟨i, rest, _, _, h⟩ <;>
    rw [h] <;> simp [distributeOrFree_streams]

theorem feedStep_duration (req : Nat) (st : DemuxState) :
    (feedStep req st).duration = st.duration := by
  rcases feedStep_shape req st with ⟨p, q', _, h⟩ | ⟨_, _, h⟩ | ⟨i, rest, _, _, h⟩ <;>
    rw [h] <;> simp [distributeOrFree_duration]

theorem feedStep_freed_mono (req : Nat) (st : DemuxState) :
    ∃ l, (feedStep req st).freed = st.freed ++ l := by
  rcases feedStep_shape req st with ⟨p, q', _, h⟩ | ⟨_, _, h⟩ | ⟨i, rest, _, _, h⟩
  · rcases distributeOrFree_freed_mono { st with queue := q' } p req with ⟨l, hl⟩
    exact ⟨l, by rw [h]; simpa using hl⟩
  · exact ⟨[], by simp [h]⟩
  · rcases distributeOrFree_freed_mono
      { st with container := rest, nextSerial := st.nextSerial + 1,
                readLog := st.readLog ++ [⟨i, st.nextSerial⟩] } ⟨i, st.nextSerial⟩ req with ⟨l, hl⟩
    exact ⟨l, by rw [h]; simpa using hl⟩

theorem feedStep_readLog_mono (req : Nat) (st : DemuxState) :
    ∃ l, (feedStep req st).readLog = st.readLog ++ l := by
  rcases feedStep_shape req st with ⟨p, q', _, h⟩ | ⟨_, _, h⟩ | ⟨i, rest, _, _, h⟩
  · exact ⟨[], by rw [h]; simpa using distributeOrFree_readLog { st with queue := q' } p req⟩
  · exact ⟨[], by simp [h]⟩
  · refine ⟨[⟨i, st.nextSerial⟩], ?_⟩
    rw [h]
    simpa using distributeOrFree_readLog
      { st with container := rest, nextSerial := st.nextSerial + 1,
                readLog := st.readLog ++ [⟨i, st.nextSerial⟩] } ⟨i, st.nextSerial⟩ req

/-! The feed loop: unfolding equations, termination, preservation. -/

theorem feedLoop_stop (fuel req : Nat) (st : DemuxState) (h : feedCond st req = false) :
    feedLoop (fuel + 1) req st = st := by
  simp [feedLoop, h]

theorem feedLoop_go (fuel req : Nat) (st : DemuxState) (h : feedCond st req = true) :
    feedLoop (fuel + 1) req st = feedLoop fuel req (feedStep req st) := by
  simp [feedLoop, h]

theorem feedStep_measure (req : Nat) (st : DemuxState) (hcond : feedCond st req = true) :
    feedMeasure req (feedStep req st) < feedMeasure req st := by
  have heof : st.eofReached = false := by
    rcases Bool.and_eq_true .. |>.mp hcond with ⟨h1, -⟩
    simpa using h1
  rcases feedStep_shape req st with ⟨p, q', hg, h⟩ | ⟨hg, hc, h⟩ | ⟨i, rest, hg, hc, h⟩
  · rcases gather_eq_some req st.queue p (by rw [hg]) with ⟨l, r, hq, hq', hcp, hl⟩
    rw [hg] at hq'
    simp only at hq'
    have hfilter : (st.queue.filter (canUsePacket req)).length =
        (q'.filter (canUsePacket req)).length + 1 := by
      rw [hq, hq']
      simp [List.filter_append, hcp]
      omega
    rcases distributeOrFree_cases { st with queue := q' } p req with hd | ⟨-, hd⟩ | ⟨hne, hd⟩
    · rw [h, hd]
      simp [feedMeasure, heof, hfilter]
    · rw [h, hd]
      simp [feedMeasure, pushEncodedData, heof, hfilter]
    · exfalso
      have : p.streamIndex = req := by simpa [canUsePacket] using hcp
      exact hne this
  · rw [h]
    simp [feedMeasure, heof, hc]
  · have hfilter : ∀ q2 : List Packet, feedMeasure req (distributeOrFree
        { st with container := rest, nextSerial := st.nextSerial + 1,
                  readLog := st.readLog ++ [⟨i, st.nextSerial⟩] } ⟨i, st.nextSerial⟩ req) <
        feedMeasure req st → True := fun _ _ => trivial
    rcases distributeOrFree_cases
      { st with container := rest, nextSerial := st.nextSerial + 1,
                readLog := st.readLog ++ [⟨i, st.nextSerial⟩] } ⟨i, st.nextSerial⟩ req
      with hd | ⟨-, hd⟩ | ⟨hne, hd⟩
    · rw [h, hd]
      simp [feedMeasure, heof, hc]
    · rw [h, hd]
      simp [feedMeasure, pushEncodedData, heof, hc]
    · rw [h, hd]
      have : canUsePacket req ⟨i, st.nextSerial⟩ = false := by
        simpa [canUsePacket] using hne
      simp [feedMeasure, queueEncodedData, heof, hc, List.filter_append, this]

theorem feedLoop_terminal (fuel : Nat) : ∀ (req : Nat) (st : DemuxState),
    feedMeasure req st < fuel → feedCond (feedLoop fuel req st) req = false := by
  induction fuel with
  | zero => intro req st h; exact absurd h (Nat.not_lt_zero _)
  | succ n ih =>
      intro req st h
      by_cases hc : feedCond st req = true
      · rw [feedLoop_go n req st hc]
        exact ih req (feedStep req st) (by
          have := feedStep_measure req st hc
          omega)
      · rw [feedLoop_stop n req st (by simpa using hc)]
        simpa using hc

theorem feedMeasure_le (req : Nat) (st : DemuxState) :
    feedMeasure req st ≤ st.container.length + st.queue.length + 1 := by
  unfold feedMeasure
  have h1 := List.length_filter_le (canUsePacket req) st.queue
  have h2 : (if st.eofReached then 0 else 1) ≤ 1 := by split <;> omega
  omega

theorem feedStream_terminal (req : Nat) (st : DemuxState) :
    feedCond (feedStream req st) req = false := by
  unfold feedStream
  exact feedLoop_terminal _ req st (by have := feedMeasure_le req st; omega)

theorem feedLoop_selected (fuel : Nat) : ∀ (req : Nat) (st : DemuxState),
    (feedLoop fuel req st).selected = st.selected := by
  induction fuel with
  | zero => intro req st; rfl
  | succ n ih =>
      intro req st
      by_cases hc : feedCond st req = true
      · rw [feedLoop_go n req st hc, ih, feedStep_selected]
      · rw [feedLoop_stop n req st (by simpa using hc)]

theorem feedLoop_streams (fuel : Nat) : ∀ (req : Nat) (st : DemuxState),
    (feedLoop fuel req st).streams = st.streams := by
  induction fuel with
  | zero => intro req st; rfl
  | succ n ih =>
      intro req st
      by_cases hc : feedCond st req = true
      · rw [feedLoop_go n req st hc, ih, feedStep_streams]
      · rw [feedLoop_stop n req st (by simpa using hc)]

theorem feedLoop_duration (fuel : Nat) : ∀ (req : Nat) (st : DemuxState),
    (feedLoop fuel req st).duration = st.duration := by
  induction fuel with
  | zero => intro req st; rfl
  | succ n ih =>
      intro req st
      by_cases hc : feedCond st req = true
      · rw [feedLoop_go n req st hc, ih, feedStep_duration]
      · rw [feedLoop_stop n req st (by simpa using hc)]

theorem feedLoop_freed_mono (fuel : Nat) : ∀ (req : Nat) (st : DemuxState),
    ∃ l, (feedLoop fuel req st).freed = st.freed ++ l := by
  induction fuel with
  | zero => intro req st; exact ⟨[], by simp [feedLoop]⟩
  | succ n ih =>
      intro req st
      by_cases hc : feedCond st req = true
      · rw [feedLoop_go n req st hc]
        rcases feedStep_freed_mono req st with ⟨l1, h1⟩
        rcases ih req (feedStep req st) with ⟨l2, h2⟩
        exact ⟨l1 ++ l2, by rw [h2, h1, List.append_assoc]⟩
      · rw [feedLoop_stop n req st (by simpa using hc)]
        exact ⟨[], by simp⟩

/-! Packet conservation: the delivered, freed and still-queued packets are
exactly the packets handed out by readPacket, in multiset terms. -/

theorem packetsOf_distributeOrFree (st : DemuxState) (p : Packet) (req : Nat) :
    List.Perm (packetsOf (distributeOrFree st p req)) (p :: packetsOf st) := by
  rcases distributeOrFree_cases st p req with h | ⟨-, h⟩ | ⟨-, h⟩
  · rw [h]
    simp only [packetsOf]
    simpa [List.append_assoc] using
      (@List.perm_middle _ p (st.delivered.map Prod.snd ++ st.freed) st.queue)
  · rw [h]
    simp only [packetsOf, pushEncodedData, List.map_append]
    simpa [List.append_assoc] using
      (@List.perm_middle _ p (st.delivered.map Prod.snd) (st.freed ++ st.queue))
  · rw [h]
    simp only [packetsOf, queueEncodedData]
    simpa [List.append_assoc] using
      (List.perm_append_singleton p (st.delivered.map Prod.snd ++ st.freed ++ st.queue))

theorem packetsOf_feedStep (req : Nat) (st : DemuxState)
    (h : List.Perm (packetsOf st) st.readLog) :
    List.Perm (packetsOf (feedStep req st)) (feedStep req st).readLog := by
  rcases feedStep_shape req st with ⟨p, q', hg, hs⟩ | ⟨-, -, hs⟩ | ⟨i, rest, -, -, hs⟩
  · rcases gather_eq_some req st.queue p (by rw [hg]) with ⟨l, r, hq, hq', -, -⟩
    rw [hg] at hq'
    simp only at hq'
    rw [hs, distributeOrFree_readLog]
    have h1 := packetsOf_distributeOrFree { st with queue := q' } p req
    have h2 : List.Perm (p :: packetsOf { st with queue := q' }) (packetsOf st) := by
      simp only [packetsOf, hq, hq']
      simpa [List.append_assoc] using
        (@List.perm_middle _ p (st.delivered.map Prod.snd ++ st.freed ++ l) r).symm
    exact ((h1.trans h2).trans h).trans (by simp)
  · rw [hs]
    simp only [packetsOf]
    exact h
  · rw [hs, distributeOrFree_readLog]
    have h1 := packetsOf_distributeOrFree
      { st with container := rest, nextSerial := st.nextSerial + 1,
                readLog := st.readLog ++ [⟨i, st.nextSerial⟩] } ⟨i, st.nextSerial⟩ req
    refine h1.trans ?_
    have h2 : List.Perm (Packet.mk i st.nextSerial :: packetsOf st)
        (st.readLog ++ [⟨i, st.nextSerial⟩]) := by
      exact (h.cons _).trans (List.perm_append_singleton _ _).symm
    simpa [packetsOf] using h2

theorem packetsOf_feedLoop (fuel : Nat) : ∀ (req : Nat) (st : DemuxState),
    List.Perm (packetsOf st) st.readLog →
    List.Perm (packetsOf (feedLoop fuel req st)) (feedLoop fuel req st).readLog := by
  induction fuel with
  | zero => intro req st h; simpa [feedLoop] using h
  | succ n ih =>
      intro req st h
      by_cases hc : feedCond st req = true
      · rw [feedLoop_go n req st hc]
        exact ih req (feedStep req st) (packetsOf_feedStep req st h)
      · rw [feedLoop_stop n req st (by simpa using hc)]
        exact h

theorem packetsOf_flushBuffers (st : DemuxState)
    (h : List.Perm (packetsOf st) st.readLog) :
    List.Perm (packetsOf (flushBuffers st)) (flushBuffers st).readLog := by
  simp only [packetsOf, flushBuffers]
  simpa [packetsOf, List.append_assoc] using h

theorem packetsOf_applyOp (st : DemuxState) (op : DemuxOp)
    (h : List.Perm (packetsOf st) st.readLog) :
    List.Perm (packetsOf (applyOp st op)) (applyOp st op).readLog := by
  cases op with
  | feed req => exact packetsOf_feedLoop _ req st h
  | flush => exact packetsOf_flushBuffers st h
  | seek b e l =>
      have := packetsOf_flushBuffers (resetEndOfFileStatus st)
        (by simpa [packetsOf, resetEndOfFileStatus] using h)
      simpa [applyOp, willSeek, packetsOf, flushBuffers, resetEndOfFileStatus] using this

theorem packetsOf_runOps (ops : List DemuxOp) : ∀ (st : DemuxState),
    List.Perm (packetsOf st) st.readLog →
    List.Perm (packetsOf (runOps st ops)) (runOps st ops).readLog := by
  induction ops with
  | nil => intro st h; exact h
  | cons op rest ih => intro st h; exact ih (applyOp st op) (packetsOf_applyOp st op h)

/-! Serial freshness: the read log's serials are exactly 0, 1, ...,
nextSerial - 1, so distinct packets read are distinct resources. -/

def serialInv (st : DemuxState) : Prop :=
  st.readLog.map Packet.serial = List.range st.nextSerial

theorem serialInv_feedStep (req : Nat) (st : DemuxState) (h : serialInv st) :
    serialInv (feedStep req st) := by
  rcases feedStep_shape req st with ⟨p, q', -, hs⟩ | ⟨-, -, hs⟩ | ⟨i, rest, -, -, hs⟩
  · unfold serialInv
    rw [hs, distributeOrFree_readLog, distributeOrFree_nextSerial]
    exact h
  · unfold serialInv
    rw [hs]
    exact h
  · unfold serialInv
    rw [hs, distributeOrFree_readLog, distributeOrFree_nextSerial]
    simp only
    rw [List.map_append, h, List.range_succ]
    rfl

theorem serialInv_feedLoop (fuel : Nat) : ∀ (req : Nat) (st : DemuxState),
    serialInv st → serialInv (feedLoop fuel req st) := by
  induction fuel with
  | zero => intro req st h; simpa [feedLoop] using h
  | succ n ih =>
      intro req st h
      by_cases hc : feedCond st req = true
      · rw [feedLoop_go n req st hc]
        exact ih req (feedStep req st) (serialInv_feedStep req st h)
      · rw [feedLoop_stop n req st (by simpa using hc)]
        exact h

theorem serialInv_applyOp (st : DemuxState) (op : DemuxOp) (h : serialInv st) :
    serialInv (applyOp st op) := by
  cases op with
  | feed req => exact serialInv_feedLoop _ req st h
  | flush => simpa [serialInv, applyOp, flushBuffers] using h
  | seek b e l =>
      simpa [serialInv, applyOp, willSeek, flushBuffers, resetEndOfFileStatus] using h

theorem serialInv_runOps (ops : List DemuxOp) : ∀ (st : DemuxState),
    serialInv st → serialInv (runOps st ops) := by
  induction ops with
  | nil => intro st h; exact h
  | cons op rest ih => intro st h; exact ih (applyOp st op) (serialInv_applyOp st op h)

/-! Provenance of delivered packets: a delivery happens only towards the
destination of the packet, and only while that destination is selected. -/

theorem distributeOrFree_delivered_mem (st : DemuxState) (p : Packet) (req sid : Nat)
    (p' : Packet) (h : (sid, p') ∈ (distributeOrFree st p req).delivered) :
    (sid, p') ∈ st.delivered ∨
      (p' = p ∧ sid = p.streamIndex ∧ st.selected = some p.streamIndex) := by
  rcases distributeOrFree_cases st p req with hd | ⟨hsel, hd⟩ | ⟨-, hd⟩
  · rw [hd] at h
    exact Or.inl (by simpa using h)
  · rw [hd] at h
    simp only [pushEncodedData, List.mem_append] at h
    rcases h with h | h
    · exact Or.inl h
    · rcases List.mem_singleton.mp h with h
      exact Or.inr ⟨congrArg Prod.snd h, congrArg Prod.fst h, hsel⟩
  · rw [hd] at h
    exact Or.inl (by simpa [queueEncodedData] using h)

theorem feedStep_delivered_mem (req : Nat) (st : DemuxState) (sid : Nat) (p' : Packet)
    (h : (sid, p') ∈ (feedStep req st).delivered) :
    (sid, p') ∈ st.delivered ∨
      (sid = p'.streamIndex ∧ st.selected = some p'.streamIndex) := by
  rcases feedStep_shape req st with ⟨p, q', -, hs⟩ | ⟨-, -, hs⟩ | ⟨i, rest, -, -, hs⟩
  · rw [hs] at h
    rcases distributeOrFree_delivered_mem _ p req sid p' h with h | ⟨h1, h2, h3⟩
    · exact Or.inl (by simpa using h)
    · subst h1
      exact Or.inr ⟨h2, by simpa using h3⟩
  · rw [hs] at h
    exact Or.inl (by simpa using h)
  · rw [hs] at h
    rcases distributeOrFree_delivered_mem _ _ req sid p' h with h | ⟨h1, h2, h3⟩
    · exact Or.inl (by simpa using h)
    · subst h1
      exact Or.inr ⟨h2, by simpa using h3⟩

theorem feedLoop_delivered_mem (fuel : Nat) : ∀ (req : Nat) (st : DemuxState)
    (sid : Nat) (p' : Packet), (sid, p') ∈ (feedLoop fuel req st).delivered →
    (sid, p') ∈ st.delivered ∨
      (sid = p'.streamIndex ∧ st.selected = some p'.streamIndex) := by
  induction fuel with
  | zero => intro req st sid p' h; exact Or.inl (by simpa [feedLoop] using h)
  | succ n ih =>
      intro req st sid p' h
      by_cases hc : feedCond st req = true
      · rw [feedLoop_go n req st hc] at h
        rcases ih req (feedStep req st) sid p' h with h | ⟨h1, h2⟩
        · exact feedStep_delivered_mem req st sid p' h
        · exact Or.inr ⟨h1, by rw [← feedStep_selected req st]; exact h2⟩
      · rw [feedLoop_stop n req st (by simpa using hc)] at h
        exact Or.inl h

theorem applyOp_selected (st : DemuxState) (op : DemuxOp) :
    (applyOp st op).selected = st.selected := by
  cases op with
  | feed req => exact feedLoop_selected _ req st
  | flush => rfl
  | seek b e l => rfl

theorem applyOp_delivered_mem (st : DemuxState) (op : DemuxOp) (sid : Nat) (p' : Packet)
    (h : (sid, p') ∈ (applyOp st op).delivered) :
    (sid, p') ∈ st.delivered ∨
      (sid = p'.streamIndex ∧ st.selected = some p'.streamIndex) := by
  cases op with
  | feed req => exact feedLoop_delivered_mem _ req st sid p' h
  | flush => exact Or.inl h
  | seek b e l => exact Or.inl h

theorem runOps_delivered_mem (ops : List DemuxOp) : ∀ (st : DemuxState)
    (sid : Nat) (p' : Packet), (sid, p') ∈ (runOps st ops).delivered →
    (sid, p') ∈ st.delivered ∨
      (sid = p'.streamIndex ∧ st.selected = some p'.streamIndex) := by
  induction ops with
  | nil => intro st sid p' h; exact Or.inl h
  | cons op rest ih =>
      intro st sid p' h
      rcases ih (applyOp st op) sid p' h with h | ⟨h1, h2⟩
      · exact applyOp_delivered_mem st op sid p' h
      · exact Or.inr ⟨h1, by rw [← applyOp_selected st op]; exact h2⟩

/-! Behavior with no selected stream: dispatch rejects everything. -/

theorem distributePacket_noSelection (st : DemuxState) (p : Packet) (req : Nat)
    (h : st.selected = none) : distributePacket st p req = (false, st) := by
  unfold distributePacket
  cases lookupA st.streams p.streamIndex with
  | none => rfl
  | some e => simp [getSelectedVideoStream, h]

theorem feedStep_noSelection (req : Nat) (st : DemuxState) (h : st.selected = none) :
    (feedStep req st).delivered = st.delivered ∧
    (∀ q ∈ (feedStep req st).readLog, q ∈ st.readLog ∨ q ∈ (feedStep req st).freed) := by
  rcases feedStep_shape req st with ⟨p, q', -, hs⟩ | ⟨-, -, hs⟩ | ⟨i, rest, -, -, hs⟩
  · have hrej := distributePacket_noSelection { st with queue := q' } p req (by simpa using h)
    rw [hs, distributeOrFree_rejected _ p req hrej]
    exact ⟨rfl, fun q hq => Or.inl hq⟩
  · rw [hs]
    exact ⟨rfl, fun q hq => Or.inl hq⟩
  · have hrej := distributePacket_noSelection
      { st with container := rest, nextSerial := st.nextSerial + 1,
                readLog := st.readLog ++ [⟨i, st.nextSerial⟩] } ⟨i, st.nextSerial⟩ req
      (by simpa using h)
    rw [hs, distributeOrFree_rejected _ _ req hrej]
    refine ⟨rfl, fun q hq => ?_⟩
    simp only [List.mem_append, List.mem_singleton] at hq
    rcases hq with hq | hq
    · exact Or.inl hq
    · exact Or.inr (by simp [hq])

theorem feedLoop_noSelection (fuel : Nat) : ∀ (req : Nat) (st : DemuxState),
    st.selected = none →
    (feedLoop fuel req st).delivered = st.delivered ∧
    (∀ q ∈ (feedLoop fuel req st).readLog,
        q ∈ st.readLog ∨ q ∈ (feedLoop fuel req st).freed) := by
  induction fuel with
  | zero =>
      intro req st h
      exact ⟨by simp [feedLoop], fun q hq => Or.inl (by simpa [feedLoop] using hq)⟩
  | succ n ih =>
      intro req st h
      by_cases hc : feedCond st req = true
      · rw [feedLoop_go n req st hc]
        have h1 : (feedStep req st).selected = none := by
          rw [feedStep_selected]; exact h
        rcases ih req (feedStep req st) h1 with ⟨ihd, ihr⟩
        rcases feedStep_noSelection req st h with ⟨hd, hr⟩
        refine ⟨by rw [ihd, hd], fun q hq => ?_⟩
        rcases ihr q hq with hq' | hq'
        · rcases hr q hq' with hq'' | hq''
          · exact Or.inl hq''
          · rcases feedLoop_freed_mono n req (feedStep req st) with ⟨l, hl⟩
            exact Or.inr (by rw [hl]; exact List.mem_append_left l hq'')
        · exact Or.inr hq'
      · rw [feedLoop_stop n req st (by simpa using hc)]
        exact ⟨rfl, fun q hq => Or.inl hq⟩

/-! Association list facts used for the construction loop. -/

theorem lookupA_append {α : Type} (t1 t2 : List (Nat × α)) (k : Nat) :
    lookupA (t1 ++ t2) k =
      match lookupA t1 k with
      | some v => some v
      | none => lookupA t2 k := by
  induction t1 with
  | nil => simp [lookupA]
  | cons kv rest ih =>
      by_cases h : kv.1 = k
      · simp [lookupA, h]
      · simp only [List.cons_append, lookupA, h, if_false]
        exact ih

theorem lookupA_none_of_keys_lt {α : Type} (t : List (Nat × α)) (k : Nat)
    (h : ∀ kv ∈ t, kv.1 < k) : lookupA t k = none := by
  induction t with
  | nil => rfl
  | cons kv rest ih =>
      have h1 : kv.1 ≠ k := Nat.ne_of_lt (h kv (by simp))
      simp only [lookupA, h1, if_false]
      exact ih (fun x hx => h x (by simp [hx]))

theorem lookupA_append_skip {α : Type} (t : List (Nat × α)) (i k : Nat) (v : α)
    (h : i ≠ k) : lookupA (t ++ [(i, v)]) k = lookupA t k := by
  rw [lookupA_append]
  cases lookupA t k with
  | none => simp [lookupA, h]
  | some w => rfl

/-- Keys at or past the running index are untouched below it: looking up a
key below the loop's start index only sees what was already accumulated. -/
theorem constructLoop_lookup_low (css : List ContainerStreamInfo) :
    ∀ (i : Nat) (dur : Int) (tbl : List (Nat × StreamEntry)) (ign : List (Nat × String))
      (k : Nat), k < i →
      lookupA (constructLoop i dur tbl ign css).1 k = lookupA tbl k ∧
      lookupA (constructLoop i dur tbl ign css).2.1 k = lookupA ign k := by
  induction css with
  | nil => intro i dur tbl ign k _; exact ⟨rfl, rfl⟩
  | cons cs rest ih =>
      intro i dur tbl ign k hk
      cases hct : cs.codecType with
      | Video =>
          by_cases hf : cs.initFails
          · simp only [constructLoop, hct, hf, if_true]
            exact ih (i + 1) dur tbl ign k (by omega)
          · simp only [constructLoop, hct, hf, if_false, Bool.false_eq_true]
            rcases ih (i + 1) (extractDurationFromStream dur cs.streamDuration)
              (tbl ++ [(i, ⟨cs.passive, MediaType.Video, cs.addr⟩)]) ign k (by omega)
              with ⟨h1, h2⟩
            refine ⟨?_, h2⟩
            rw [h1, lookupA_append_skip tbl i k _ (by omega)]
      | Unknown =>
          simp only [constructLoop, hct]
          rcases ih (i + 1) dur tbl (ign ++ [(i, cs.desc)]) k (by omega) with ⟨h1, h2⟩
          refine ⟨h1, ?_⟩
          rw [h2, lookupA_append_skip ign i k _ (by omega)]

/-- What the stream table and the ignored table hold at the index of each
container-reported stream. -/
theorem constructLoop_lookup (css : List ContainerStreamInfo) :
    ∀ (j : Nat) (cs : ContainerStreamInfo) (i : Nat) (dur : Int)
      (tbl : List (Nat × StreamEntry)) (ign : List (Nat × String)),
      css.get? j = some cs →
      (∀ kv ∈ tbl, kv.1 < i) → (∀ kv ∈ ign, kv.1 < i) →
      ((cs.codecType = MediaType.Video → cs.initFails = false →
          lookupA (constructLoop i dur tbl ign css).1 (i + j) =
            some ⟨cs.passive, MediaType.Video, cs.addr⟩ ∧
          lookupA (constructLoop i dur tbl ign css).2.1 (i + j) = none) ∧
       (cs.codecType = MediaType.Video → cs.initFails = true →
          lookupA (constructLoop i dur tbl ign css).1 (i + j) = none ∧
          lookupA (constructLoop i dur tbl ign css).2.1 (i + j) = none) ∧
       (cs.codecType = MediaType.Unknown →
          lookupA (constructLoop i dur tbl ign css).1 (i + j) = none ∧
          lookupA (constructLoop i dur tbl ign css).2.1 (i + j) = some cs.desc)) := by
  induction css with
  | nil => intro j cs i dur tbl ign hj; simp at hj
  | cons c0 rest ih =>
      intro j cs i dur tbl ign hj htbl hign
      cases j with
      | zero =>
          simp only [List.get?] at hj
          cases hj
          cases hct : c0.codecType with
          | Video =>
              by_cases hf : c0.initFails
              · refine ⟨fun _ h => absurd hf (by simp [h]), fun _ _ => ?_,
                  fun h => absurd h (by simp [hct])⟩
                simp only [constructLoop, hct, hf, if_true]
                rcases constructLoop_lookup_low rest (i + 1) dur tbl ign i (by omega)
                  with ⟨h1, h2⟩
                exact ⟨h1.trans (lookupA_none_of_keys_lt tbl i htbl),
                       h2.trans (lookupA_none_of_keys_lt ign i hign)⟩
              · refine ⟨fun _ _ => ?_, fun _ h => absurd h (by simpa using hf),
                  fun h => absurd h (by simp [hct])⟩
                simp only [constructLoop, hct, hf, if_false, Bool.false_eq_true]
                rcases constructLoop_lookup_low rest (i + 1)
                  (extractDurationFromStream dur c0.streamDuration)
                  (tbl ++ [(i, ⟨c0.passive, MediaType.Video, c0.addr⟩)]) ign i (by omega)
                  with ⟨h1, h2⟩
                have hx : lookupA (tbl ++ [(i, (⟨c0.passive, MediaType.Video, c0.addr⟩ :
                    StreamEntry))]) i = some ⟨c0.passive, MediaType.Video, c0.addr⟩ := by
                  rw [lookupA_append, lookupA_none_of_keys_lt tbl i htbl]
                  simp [lookupA]
                exact ⟨h1.trans hx, h2.trans (lookupA_none_of_keys_lt ign i hign)⟩
          | Unknown =>
              refine ⟨fun h => absurd h (by simp [hct]),
                fun h => absurd h (by simp [hct]), fun _ => ?_⟩
              simp only [constructLoop, hct]
              rcases constructLoop_lookup_low rest (i + 1) dur tbl
                (ign ++ [(i, c0.desc)]) i (by omega) with ⟨h1, h2⟩
              have hx : lookupA (ign ++ [(i, c0.desc)]) i = some c0.desc := by
                rw [lookupA_append, lookupA_none_of_keys_lt ign i hign]
                simp [lookupA]
              exact ⟨h1.trans (lookupA_none_of_keys_lt tbl i htbl), h2.trans hx⟩
      | succ j' =>
          simp only [List.get?] at hj
          have harith : i + (j' + 1) = (i + 1) + j' := by omega
          cases hct : c0.codecType with
          | Video =>
              by_cases hf : c0.initFails
              · simp only [constructLoop, hct, hf, if_true, harith]
                exact ih j' cs (i + 1) dur tbl ign hj
                  (fun kv hkv => by have := htbl kv hkv; omega)
                  (fun kv hkv => by have := hign kv hkv; omega)
              · simp only [constructLoop, hct, hf, if_false, Bool.false_eq_true, harith]
                exact ih j' cs (i + 1) (extractDurationFromStream dur c0.streamDuration)
                  (tbl ++ [(i, ⟨c0.passive, MediaType.Video, c0.addr⟩)]) ign hj
                  (fun kv hkv => by
                    rcases List.mem_append.mp hkv with hkv | hkv
                    · have := htbl kv hkv; omega
                    · rcases List.mem_singleton.mp hkv with rfl; simp)
                  (fun kv hkv => by have := hign kv hkv; omega)
          | Unknown =>
              simp only [constructLoop, hct, harith]
              exact ih j' cs (i + 1) dur tbl (ign ++ [(i, c0.desc)]) hj
                (fun kv hkv => by have := htbl kv hkv; omega)
                (fun kv hkv => by
                  rcases List.mem_append.mp hkv with hkv | hkv
                  · have := hign kv hkv; omega
                  · rcases List.mem_singleton.mp hkv with rfl; simp)

/-- The duration that comes out of the discovery loop: the first nonzero
candidate among the duration known so far and the durations offered by the
successfully loaded video streams, in order. -/
theorem constructLoop_duration (css : List ContainerStreamInfo) :
    ∀ (i : Nat) (dur : Int) (tbl : List (Nat × StreamEntry)) (ign : List (Nat × String)),
      (constructLoop i dur tbl ign css).2.2 =
        firstNonzeroDuration (dur :: loadedVideoDurations css) := by
  induction css with
  | nil =>
      intro i dur tbl ign
      by_cases h : dur = 0
      · simp [constructLoop, loadedVideoDurations, firstNonzeroDuration, h]
      · simp [constructLoop, loadedVideoDurations, firstNonzeroDuration, h]
  | cons cs rest ih =>
      intro i dur tbl ign
      cases hct : cs.codecType with
      | Video =>
          by_cases hf : cs.initFails
          · simp only [constructLoop, hct, hf, if_true]
            rw [ih]
            simp [loadedVideoDurations, hct, hf]
          · simp only [constructLoop, hct, hf, if_false, Bool.false_eq_true]
            rw [ih]
            by_cases h : dur = 0
            · have hx : extractDurationFromStream dur cs.streamDuration =
                  cs.streamDuration.getD 0 := by
                cases hsd : cs.streamDuration <;>
                  simp [extractDurationFromStream, h, hsd]
              rw [hx]
              simp [loadedVideoDurations, firstNonzeroDuration, hct, hf, h]
            · have hx : extractDurationFromStream dur cs.streamDuration = dur := by
                simp [extractDurationFromStream, h]
              rw [hx]
              simp [loadedVideoDurations, firstNonzeroDuration, hct, hf, h]
      | Unknown =>
          simp only [constructLoop, hct]
          rw [ih]
          simp [loadedVideoDurations, hct]

/-! Facts about the std::set ordering used by selectFirstVideoStream. -/

theorem minByAddr_eq_none' (l : List (Nat × StreamEntry)) :
    minByAddr l = none ↔ l = [] := by
  cases l with
  | nil => simp [minByAddr]
  | cons x xs => simp [minByAddr]

theorem applyOp_duration (st : DemuxState) (op : DemuxOp) :
    (applyOp st op).duration = st.duration := by
  cases op with
  | feed req => exact feedLoop_duration _ req st
  | flush => rfl
  | seek b e l => rfl

theorem runOps_duration (ops : List DemuxOp) : ∀ (st : DemuxState),
    (runOps st ops).duration = st.duration := by
  induction ops with
  | nil => intro st; rfl
  | cons op rest ih =>
      intro st
      rw [runOps, ih, applyOp_duration]

theorem minByAddr_mem (l : List (Nat × StreamEntry)) (kv : Nat × StreamEntry)
    (h : minByAddr l = some kv) : kv ∈ l := by
  induction l with
  | nil => simp [minByAddr] at h
  | cons x xs ih =>
      simp only [minByAddr] at h
      cases hm : minByAddr xs with
      | none =>
          rw [hm] at h
          cases h
          simp
      | some y =>
          rw [hm] at h
          have h' : (if y.2.addr < x.2.addr then y else x) = kv := by
            simpa using h
          by_cases hlt : y.2.addr < x.2.addr
          · rw [if_pos hlt] at h'
            cases h'
            exact List.mem_cons_of_mem x (ih hm)
          · rw [if_neg hlt] at h'
            cases h'
            simp

theorem minByAddr_le (l : List (Nat × StreamEntry)) :
    ∀ (kv : Nat × StreamEntry), minByAddr l = some kv →
    ∀ x ∈ l, kv.2.addr ≤ x.2.addr := by
  induction l with
  | nil => intro kv h; simp [minByAddr] at h
  | cons x xs ih =>
      intro kv h z hz
      simp only [minByAddr] at h
      cases hm : minByAddr xs with
      | none =>
          rw [hm] at h
          cases h
          have hxs : xs = [] := (minByAddr_eq_none' xs).mp hm
          subst hxs
          rcases List.mem_cons.mp hz with hz | hz
          · rw [hz]
          · simp at hz
      | some y =>
          rw [hm] at h
          have h' : (if y.2.addr < x.2.addr then y else x) = kv := by
            simpa using h
          by_cases hlt : y.2.addr < x.2.addr
          · rw [if_pos hlt] at h'
            subst h'
            rcases List.mem_cons.mp hz with hz | hz
            · rw [hz]; omega
            · exact ih y hm z hz
          · rw [if_neg hlt] at h'
            subst h'
            rcases List.mem_cons.mp hz with hz | hz
            · rw [hz]
            · have := ih y hm z hz
              omega

/-! Concrete fixtures used by counterexamples and witnesses. -/

/-- Two video streams 0 and 1 in the table, stream 0 selected, the
container about to yield one packet destined to stream 1, stream 0
demanding one packet. -/
def stC1 : DemuxState :=
  initState [1] [(0, ⟨false, MediaType.Video, 10⟩), (1, ⟨false, MediaType.Video, 20⟩)]
    [] (some 0) [(0, 1)] 0

/-- An idle demuxer state: no streams, no demand. -/
def stIdle : DemuxState := initState [] [] [] none [] 0

/-- One selected video stream 0 demanding one packet, one packet for it. -/
def stOne : DemuxState :=
  initState [0] [(0, ⟨false, MediaType.Video, 3⟩)] [] (some 0) [(0, 1)] 0

/-- No stream selected, two packets ahead, stream 0 demanding five. -/
def stNoSel : DemuxState :=
  initState [1, 0] [(0, ⟨false, MediaType.Video, 3⟩), (1, ⟨false, MediaType.Video, 4⟩)]
    [] none [(0, 5)] 0

/-- Empty container but live demand: the first iteration hits end of file. -/
def stEof : DemuxState := initState [] [] [] none [(0, 1)] 0

/-! C1 -/

/-- C1 counterexample: the destination of the packet exists in the Stream
Table (stream 1) but is not the selected stream (stream 0 is); the claim
predicts the packet is queued and neither delivered nor freed, yet the feed
loop frees it at once and the Pending Packet Queue stays empty. -/
theorem claim_C1_counterexample :
    lookupA stC1.streams 1 = some ⟨false, MediaType.Video, 20⟩ ∧
    stC1.selected = some 0 ∧
    (feedStream 0 stC1).queue = [] ∧
    (feedStream 0 stC1).freed = [⟨1, 0⟩] ∧
    (feedStream 0 stC1).delivered = [] := by
  refine ⟨rfl, rfl, rfl, rfl, rfl⟩

/-- C1 (amended): dispatch delivers a packet only when its destination is
the selected stream and is the requester or passive; a packet whose
destination is the selected stream but neither the requester nor passive is
queued; a packet whose destination exists but is not the selected stream is
rejected by dispatch and freed by the feed loop; a seek flushes the queue,
freeing every queued packet. -/
theorem claim_C1_amended_dispatch (st : DemuxState) (p : Packet) (req : Nat)
    (e : StreamEntry) (h : lookupA st.streams p.streamIndex = some e) :
    (st.selected = some p.streamIndex → (p.streamIndex = req ∨ e.passive = true) →
        distributePacket st p req = (true, pushEncodedData st p.streamIndex p)) ∧
    (st.selected = some p.streamIndex → ¬(p.streamIndex = req ∨ e.passive = true) →
        distributePacket st p req = (true, queueEncodedData st p)) ∧
    (st.selected ≠ some p.streamIndex →
        distributePacket st p req = (false, st) ∧
        distributeOrFree st p req = { st with freed := st.freed ++ [p] }) ∧
    (∀ (b : Bool) (err : Int) (landing : List Nat),
        (willSeek b err landing st).queue = [] ∧
        (willSeek b err landing st).freed = st.freed ++ st.queue) := by
  refine ⟨fun hs hd => distributePacket_deliver st p req e h hs hd,
          fun hs hd => distributePacket_queue st p req e h hs hd,
          fun hs => ?_, fun b err landing => ?_⟩
  · have hr := distributePacket_not_selected st p req e h hs
    exact ⟨hr, distributeOrFree_rejected st p req hr⟩
  · simp [willSeek, flushBuffers, resetEndOfFileStatus]

theorem claim_C1_amended_dispatch_witness :
    distributePacket stC1 ⟨1, 0⟩ 0 = (false, stC1) ∧
    distributeOrFree stC1 ⟨1, 0⟩ 0 = { stC1 with freed := stC1.freed ++ [⟨1, 0⟩] } ∧
    distributePacket stC1 ⟨0, 0⟩ 0 =
      (true, pushEncodedData stC1 0 ⟨0, 0⟩) ∧
    distributePacket stC1 ⟨1, 0⟩ 2 = (false, stC1) := by
  have h1 := claim_C1_amended_dispatch stC1 ⟨1, 0⟩ 0 ⟨false, MediaType.Video, 20⟩ rfl
  have h2 := claim_C1_amended_dispatch stC1 ⟨0, 0⟩ 0 ⟨false, MediaType.Video, 10⟩ rfl
  have h3 := claim_C1_amended_dispatch stC1 ⟨1, 0⟩ 2 ⟨false, MediaType.Video, 20⟩ rfl
  exact ⟨(h1.2.2.1 (by decide)).1, (h1.2.2.1 (by decide)).2,
         h2.1 rfl (Or.inl rfl), (h3.2.2.1 (by decide)).1⟩

/-! C2 -/

/-- C2: the feed operation iterates exactly while the end-of-file flag is
false and the requester needs data; an iteration removes the first matching
pending packet leaving the others in order, otherwise reads the container;
a failed read sets the end-of-file flag and the loop stops; a packet
dispatch does not accept is freed. -/
theorem claim_C2_feed_loop (req : Nat) :
    (∀ (fuel : Nat) (st : DemuxState), feedCond st req = false →
        feedLoop (fuel + 1) req st = st) ∧
    (∀ (fuel : Nat) (st : DemuxState), feedCond st req = true →
        feedLoop (fuel + 1) req st = feedLoop fuel req (feedStep req st)) ∧
    (∀ (st : DemuxState), feedCond st req = false → feedStream req st = st) ∧
    (∀ (q : List Packet) (p : Packet), (gatherQueuedPacketForStream req q).1 = some p →
        ∃ l r, q = l ++ p :: r ∧ (gatherQueuedPacketForStream req q).2 = l ++ r ∧
          canUsePacket req p = true ∧ ∀ x ∈ l, canUsePacket req x = false) ∧
    (∀ (q : List Packet), (gatherQueuedPacketForStream req q).1 = none →
        (gatherQueuedPacketForStream req q).2 = q ∧ ∀ x ∈ q, canUsePacket req x = false) ∧
    (∀ (st : DemuxState) (p : Packet) (q' : List Packet),
        gatherQueuedPacketForStream req st.queue = (some p, q') →
        feedStep req st = distributeOrFree { st with queue := q' } p req) ∧
    (∀ (st : DemuxState), (gatherQueuedPacketForStream req st.queue).1 = none →
        st.container = [] → feedStep req st = { st with eofReached := true }) ∧
    (∀ (st : DemuxState) (p : Packet), (distributePacket st p req).1 = false →
        distributeOrFree st p req = { st with freed := st.freed ++ [p] }) ∧
    (∀ (st : DemuxState), feedCond (feedStream req st) req = false) := by
  refine ⟨fun fuel st h => feedLoop_stop fuel req st h,
          fun fuel st h => feedLoop_go fuel req st h,
          fun st h => feedLoop_stop _ req st h,
          fun q p h => gather_eq_some req q p h,
          fun q h => gather_eq_none req q h,
          fun st p q' h => by simp [feedStep, h],
          fun st hg hc => ?_,
          fun st p h =>
            distributeOrFree_rejected st p req (distributePacket_rejected_state st p req h),
          fun st => feedStream_terminal req st⟩
  rcases feedStep_shape req st with ⟨p, q', hg2, hs⟩ | ⟨-, -, hs⟩ | ⟨i, rest, -, hc2, hs⟩
  · rw [hg2] at hg
    simp at hg
  · exact hs
  · rw [hc2] at hc
    simp at hc

theorem claim_C2_feed_loop_witness :
    feedLoop 1 0 stIdle = stIdle ∧
    feedLoop 1 0 stOne = feedLoop 0 0 (feedStep 0 stOne) ∧
    feedStream 0 stIdle = stIdle ∧
    (∃ l r, [Packet.mk 0 5] = l ++ Packet.mk 0 5 :: r ∧
        (gatherQueuedPacketForStream 0 [Packet.mk 0 5]).2 = l ++ r ∧
        canUsePacket 0 ⟨0, 5⟩ = true ∧ ∀ x ∈ l, canUsePacket 0 x = false) ∧
    (gatherQueuedPacketForStream 0 [Packet.mk 1 5]).2 = [Packet.mk 1 5] ∧
    feedStep 0 stEof = { stEof with eofReached := true } ∧
    distributeOrFree stOne ⟨2, 7⟩ 0 = { stOne with freed := stOne.freed ++ [⟨2, 7⟩] } ∧
    feedCond (feedStream 0 stOne) 0 = false := by
  have h := claim_C2_feed_loop 0
  exact ⟨h.1 0 stIdle (by decide),
         h.2.1 0 stOne (by decide),
         h.2.2.1 stIdle (by decide),
         h.2.2.2.1 [⟨0, 5⟩] ⟨0, 5⟩ (by decide),
         (h.2.2.2.2.1 [⟨1, 5⟩] (by decide)).1,
         h.2.2.2.2.2.2.1 stEof (by decide) (by decide),
         h.2.2.2.2.2.2.2.1 stOne ⟨2, 7⟩ (by decide),
         h.2.2.2.2.2.2.2.2 stOne⟩

/-! C4 -/

/-- C4: after a willSeek notification the Pending Packet Queue is empty,
every previously queued packet has been freed, and the end-of-file flag is
false, from any prior state and whatever the container seek reports. -/
theorem claim_C4_seek_resets (b : Bool) (err : Int) (landing : List Nat)
    (st : DemuxState) :
    (willSeek b err landing st).queue = [] ∧
    (willSeek b err landing st).eofReached = false ∧
    (willSeek b err landing st).freed = st.freed ++ st.queue := by
  simp [willSeek, flushBuffers, resetEndOfFileStatus]

/-! C10 -/

/-- C10: with no video stream selected, dispatch rejects every packet, the
feed loop delivers nothing, every packet it reads is freed, and the loop
only stops once the requester needs nothing or end of file is reached. -/
theorem claim_C10_no_selection (st : DemuxState) (req : Nat) (p : Packet)
    (h : st.selected = none) :
    distributePacket st p req = (false, st) ∧
    (feedStream req st).delivered = st.delivered ∧
    (∀ q ∈ (feedStream req st).readLog, q ∈ st.readLog ∨ q ∈ (feedStream req st).freed) ∧
    feedCond (feedStream req st) req = false := by
  refine ⟨distributePacket_noSelection st p req h, ?_, ?_, feedStream_terminal req st⟩
  · exact (feedLoop_noSelection _ req st h).1
  · exact (feedLoop_noSelection _ req st h).2

theorem claim_C10_no_selection_witness :
    distributePacket stNoSel ⟨0, 0⟩ 0 = (false, stNoSel) ∧
    (feedStream 0 stNoSel).delivered = [] ∧
    feedCond (feedStream 0 stNoSel) 0 = false ∧
    (feedStream 0 stNoSel).freed = [⟨1, 0⟩, ⟨0, 1⟩] ∧
    (feedStream 0 stNoSel).readLog = [⟨1, 0⟩, ⟨0, 1⟩] := by
  have h := claim_C10_no_selection stNoSel 0 ⟨0, 0⟩ rfl
  exact ⟨h.1, h.2.1, h.2.2.2, rfl, rfl⟩

/-! C3 -/

/-- C3: the delivered, freed and still-queued packets together are, as a
multiset, exactly the packets read from the container; read serials are
distinct, so every read packet is accounted for exactly once — and once the
queue is empty (e.g. after a teardown flush) each read packet was either
delivered exactly once or freed exactly once, never both, never neither. -/
theorem claim_C3_packet_accounting (ops : List DemuxOp) (cont : List Nat)
    (streams : List (Nat × StreamEntry)) (ign : List (Nat × String))
    (sel : Option Nat) (dems : List (Nat × Nat)) (dur : Int) :
    List.Perm
      ((runOps (initState cont streams ign sel dems dur) ops).delivered.map Prod.snd ++
        (runOps (initState cont streams ign sel dems dur) ops).freed ++
        (runOps (initState cont streams ign sel dems dur) ops).queue)
      (runOps (initState cont streams ign sel dems dur) ops).readLog ∧
    ((runOps (initState cont streams ign sel dems dur) ops).readLog.map
        Packet.serial).Nodup ∧
    (∀ p ∈ (runOps (initState cont streams ign sel dems dur) ops).readLog,
        ((runOps (initState cont streams ign sel dems dur) ops).delivered.map
            Prod.snd).count p +
          (runOps (initState cont streams ign sel dems dur) ops).freed.count p +
          (runOps (initState cont streams ign sel dems dur) ops).queue.count p = 1) ∧
    ((runOps (initState cont streams ign sel dems dur) ops).queue = [] →
      ∀ p ∈ (runOps (initState cont streams ign sel dems dur) ops).readLog,
        ((runOps (initState cont streams ign sel dems dur) ops).delivered.map
            Prod.snd).count p +
          (runOps (initState cont streams ign sel dems dur) ops).freed.count p = 1) := by
  have hperm : List.Perm (packetsOf (runOps (initState cont streams ign sel dems dur) ops))
      (runOps (initState cont streams ign sel dems dur) ops).readLog :=
    packetsOf_runOps ops (initState cont streams ign sel dems dur)
      (by simp [initState, packetsOf])
  have hser : serialInv (runOps (initState cont streams ign sel dems dur) ops) :=
    serialInv_runOps ops (initState cont streams ign sel dems dur)
      (by simp [serialInv, initState])
  have hnodup : ((runOps (initState cont streams ign sel dems dur) ops).readLog.map
      Packet.serial).Nodup := by
    rw [hser]
    exact List.nodup_range _
  have hcount : ∀ p ∈ (runOps (initState cont streams ign sel dems dur) ops).readLog,
      ((runOps (initState cont streams ign sel dems dur) ops).delivered.map
          Prod.snd).count p +
        (runOps (initState cont streams ign sel dems dur) ops).freed.count p +
        (runOps (initState cont streams ign sel dems dur) ops).queue.count p = 1 := by
    intro p hp
    have h1 : (packetsOf (runOps (initState cont streams ign sel dems dur) ops)).count p =
        (runOps (initState cont streams ign sel dems dur) ops).readLog.count p :=
      hperm.count_eq p
    have h2 : (runOps (initState cont streams ign sel dems dur) ops).readLog.count p = 1 :=
      List.count_eq_one_of_mem (hnodup.of_map Packet.serial) hp
    rw [h2] at h1
    simp [packetsOf, List.count_append] at h1
    omega
  refine ⟨by simpa [packetsOf] using hperm, hnodup, hcount, fun hq p hp => ?_⟩
  have := hcount p hp
  rw [hq] at this
  simpa using this

theorem claim_C3_packet_accounting_witness :
    ((runOps (initState [0, 1] [(0, ⟨false, MediaType.Video, 3⟩)] [] (some 0)
        [(0, 2)] 0) [DemuxOp.feed 0, DemuxOp.flush]).delivered.map Prod.snd).count
        ⟨0, 0⟩ +
      (runOps (initState [0, 1] [(0, ⟨false, MediaType.Video, 3⟩)] [] (some 0)
        [(0, 2)] 0) [DemuxOp.feed 0, DemuxOp.flush]).freed.count ⟨0, 0⟩ = 1 := by
  have h := claim_C3_packet_accounting [DemuxOp.feed 0, DemuxOp.flush] [0, 1]
    [(0, ⟨false, MediaType.Video, 3⟩)] [] (some 0) [(0, 2)] 0
  exact h.2.2.2 (by decide) ⟨0, 0⟩ (by decide)

/-! C5 -/

/-- C5: across any sequence of demuxer operations, a packet is only ever
delivered to its own destination stream, and only if that destination is
the selected stream; a packet whose destination is not selected is never
pushed to any stream, whoever requested data. -/
theorem claim_C5_isolation (ops : List DemuxOp) (cont : List Nat)
    (streams : List (Nat × StreamEntry)) (ign : List (Nat × String))
    (sel : Option Nat) (dems : List (Nat × Nat)) (dur : Int) (sid : Nat) (p : Packet)
    (h : (sid, p) ∈ (runOps (initState cont streams ign sel dems dur) ops).delivered) :
    sel = some p.streamIndex ∧ sid = p.streamIndex := by
  rcases runOps_delivered_mem ops (initState cont streams ign sel dems dur) sid p h
    with h' | ⟨h1, h2⟩
  · simp [initState] at h'
  · exact ⟨by simpa [initState] using h2, h1⟩

theorem claim_C5_isolation_witness :
    some 0 = some (Packet.mk 0 0).streamIndex ∧ 0 = (Packet.mk 0 0).streamIndex := by
  exact claim_C5_isolation [DemuxOp.feed 0] [0] [(0, ⟨false, MediaType.Video, 3⟩)] []
    (some 0) [(0, 1)] 0 0 ⟨0, 0⟩ (by decide)

/-! C6 -/

/-- C6: selectVideoStream called while the transport is Playing or Paused
reports an error without touching any state; only in the Stopped state does
it disconnect the previous selection, connect the candidate and update the
selected reference (doing nothing when the candidate is already current). -/
theorem claim_C6_selection_guard (status : Status) (cand : Option Nat) (st : DemuxState) :
    ((status = Status.Playing ∨ status = Status.Paused) →
        selectVideoStream status cand st = Except.error ()) ∧
    (status = Status.Stopped → cand = st.selected →
        selectVideoStream status cand st = Except.ok st) ∧
    (status = Status.Stopped → cand ≠ st.selected →
        selectVideoStream status cand st = Except.ok
          { st with selected := cand,
                    connEvents := st.connEvents ++
                      (match st.selected with
                        | some o => [ConnEvent.disconnect o]
                        | none => []) ++
                      (match cand with
                        | some c => [ConnEvent.connect c]
                        | none => []) }) := by
  refine ⟨fun h => ?_, fun h1 h2 => ?_, fun h1 h2 => ?_⟩
  · have hne : status ≠ Status.Stopped := by
      rcases h with h | h <;> (subst h; intro hc; cases hc)
    simp [selectVideoStream, hne]
  · subst h1
    simp [selectVideoStream, h2]
  · subst h1
    simp [selectVideoStream, h2]

theorem claim_C6_selection_guard_witness :
    selectVideoStream Status.Playing (some 1) stC1 = Except.error () ∧
    selectVideoStream Status.Paused (some 1) stC1 = Except.error () ∧
    selectVideoStream Status.Stopped (some 0) stC1 = Except.ok stC1 ∧
    selectVideoStream Status.Stopped (some 1) stC1 = Except.ok
      { stC1 with selected := some 1,
                  connEvents := [ConnEvent.disconnect 0, ConnEvent.connect 1] } := by
  have h1 := claim_C6_selection_guard Status.Playing (some 1) stC1
  have h2 := claim_C6_selection_guard Status.Paused (some 1) stC1
  have h3 := claim_C6_selection_guard Status.Stopped (some 0) stC1
  have h4 := claim_C6_selection_guard Status.Stopped (some 1) stC1
  exact ⟨h1.1 (Or.inl rfl), h2.1 (Or.inr rfl), h3.2.1 rfl (by decide),
         h4.2.2 rfl (by decide)⟩

/-! C7 -/

/-- C7: only a failed container open or probe makes construction fail; with
both succeeding, every container-reported stream is processed: a video
stream whose initialization succeeds gets a Stream Table entry under its
container index, a video stream whose initialization throws is caught and
leaves no entry in either table, and a non-video stream gets exactly an
Ignored-Stream Table entry. -/
theorem claim_C7_construction (openOk probeOk : Bool) (cd : Option Int)
    (css : List ContainerStreamInfo) (j : Nat) (cs : ContainerStreamInfo)
    (hj : css.get? j = some cs) :
    (openOk = false ∨ probeOk = false →
        ∃ msg, construct openOk probeOk cd css = Except.error msg) ∧
    construct true true cd css = Except.ok (constructLoop 0 (cd.getD 0) [] [] css) ∧
    (cs.codecType = MediaType.Video → cs.initFails = false →
        lookupA (constructLoop 0 (cd.getD 0) [] [] css).1 j =
          some ⟨cs.passive, MediaType.Video, cs.addr⟩ ∧
        lookupA (constructLoop 0 (cd.getD 0) [] [] css).2.1 j = none) ∧
    (cs.codecType = MediaType.Video → cs.initFails = true →
        lookupA (constructLoop 0 (cd.getD 0) [] [] css).1 j = none ∧
        lookupA (constructLoop 0 (cd.getD 0) [] [] css).2.1 j = none) ∧
    (cs.codecType = MediaType.Unknown →
        lookupA (constructLoop 0 (cd.getD 0) [] [] css).1 j = none ∧
        lookupA (constructLoop 0 (cd.getD 0) [] [] css).2.1 j = some cs.desc) := by
  have hL := constructLoop_lookup css j cs 0 (cd.getD 0) [] [] hj
    (by intro kv hkv; simp at hkv) (by intro kv hkv; simp at hkv)
  rw [Nat.zero_add] at hL
  refine ⟨fun h => ?_, by simp [construct], hL.1, hL.2.1, hL.2.2⟩
  rcases h with h | h
  · subst h
    exact ⟨"error while opening media", by simp [construct]⟩
  · subst h
    cases openOk with
    | false => exact ⟨"error while opening media", by simp [construct]⟩
    | true => exact ⟨"error while retreiving media information", by simp [construct]⟩

theorem claim_C7_construction_witness :
    (∃ msg, construct false true none
        [⟨MediaType.Video, "a", false, none, false, 1⟩] = Except.error msg) ∧
    construct true true none
        [⟨MediaType.Video, "a", false, none, false, 1⟩,
         ⟨MediaType.Video, "b", true, some 7, false, 2⟩,
         ⟨MediaType.Unknown, "audio/mp3", false, none, false, 3⟩] =
      Except.ok (constructLoop 0 0 [] []
        [⟨MediaType.Video, "a", false, none, false, 1⟩,
         ⟨MediaType.Video, "b", true, some 7, false, 2⟩,
         ⟨MediaType.Unknown, "audio/mp3", false, none, false, 3⟩]) ∧
    lookupA (constructLoop 0 0 [] []
        [⟨MediaType.Video, "a", false, none, false, 1⟩,
         ⟨MediaType.Video, "b", true, some 7, false, 2⟩,
         ⟨MediaType.Unknown, "audio/mp3", false, none, false, 3⟩]).1 1 = none ∧
    lookupA (constructLoop 0 0 [] []
        [⟨MediaType.Video, "a", false, none, false, 1⟩,
         ⟨MediaType.Video, "b", true, some 7, false, 2⟩,
         ⟨MediaType.Unknown, "audio/mp3", false, none, false, 3⟩]).2.1 1 = none := by
  have h1 := claim_C7_construction false true none
    [⟨MediaType.Video, "a", false, none, false, 1⟩] 0
    ⟨MediaType.Video, "a", false, none, false, 1⟩ rfl
  have h2 := claim_C7_construction true true none
    [⟨MediaType.Video, "a", false, none, false, 1⟩,
     ⟨MediaType.Video, "b", true, some 7, false, 2⟩,
     ⟨MediaType.Unknown, "audio/mp3", false, none, false, 3⟩] 1
    ⟨MediaType.Video, "b", true, some 7, false, 2⟩ rfl
  exact ⟨h1.1 (Or.inl rfl), h2.2.1, (h2.2.2.2.1 rfl rfl).1, (h2.2.2.2.1 rfl rfl).2⟩

/-! C8 -/

/-- C8 counterexample: the container offers no duration and the first video
stream has none either, but a later video stream does; the claim says
getDuration is zero (neither the container nor the first video stream
provides one), yet construction resolves 42 from the second video stream. -/
theorem claim_C8_counterexample :
    construct true true none
        [⟨MediaType.Video, "v0", false, none, false, 10⟩,
         ⟨MediaType.Video, "v1", false, some 42, false, 20⟩] =
      Except.ok ([(0, ⟨false, MediaType.Video, 10⟩), (1, ⟨false, MediaType.Video, 20⟩)],
        [], 42) ∧
    durationPerSpecClaim none
        [⟨MediaType.Video, "v0", false, none, false, 10⟩,
         ⟨MediaType.Video, "v1", false, some 42, false, 20⟩] = 0 ∧
    (42 : Int) ≠ 0 := by
  refine ⟨rfl, rfl, by decide⟩

/-- C8 (amended): the duration fixed at construction is the first nonzero
candidate among the container metadata duration (absent metadata counting
as zero) followed by the durations of the successfully loaded video streams
in discovery order; it is zero when no source provides a nonzero value, and
no later operation ever changes it. -/
theorem claim_C8_amended_duration (cd : Option Int) (css : List ContainerStreamInfo)
    (tbl : List (Nat × StreamEntry)) (ign : List (Nat × String)) (dur : Int)
    (h : construct true true cd css = Except.ok (tbl, ign, dur)) :
    dur = firstNonzeroDuration (cd.getD 0 :: loadedVideoDurations css) ∧
    ∀ (ops : List DemuxOp) (cont : List Nat) (sel : Option Nat)
      (dems : List (Nat × Nat)),
      getDuration (runOps (initState cont tbl ign sel dems dur) ops) = dur := by
  have h' : constructLoop 0 (cd.getD 0) [] [] css = (tbl, ign, dur) := by
    simpa [construct] using h
  constructor
  · have hd := constructLoop_duration css 0 (cd.getD 0) [] []
    rw [h'] at hd
    exact hd
  · intro ops cont sel dems
    unfold getDuration
    rw [runOps_duration]
    rfl

theorem claim_C8_amended_duration_witness :
    (42 : Int) = firstNonzeroDuration ((none : Option Int).getD 0 ::
      loadedVideoDurations
        [⟨MediaType.Video, "v0", false, none, false, 10⟩,
         ⟨MediaType.Video, "v1", false, some 42, false, 20⟩]) ∧
    getDuration (runOps (initState [] [(0, ⟨false, MediaType.Video, 10⟩),
        (1, ⟨false, MediaType.Video, 20⟩)] [] none [] 42) [DemuxOp.flush]) = 42 := by
  have h := claim_C8_amended_duration none
    [⟨MediaType.Video, "v0", false, none, false, 10⟩,
     ⟨MediaType.Video, "v1", false, some 42, false, 20⟩]
    [(0, ⟨false, MediaType.Video, 10⟩), (1, ⟨false, MediaType.Video, 20⟩)] [] 42 rfl
  exact ⟨h.1, h.2 [DemuxOp.flush] [] none []⟩

/-! C9 -/

/-- C9 counterexample: the table holds video streams 0 and 1, stream 0
having the larger allocation address; selectFirstVideoStream picks the
least element of the std::set of shared_ptr values, i.e. stream 1, not the
stream with the lowest container identifier as the claim states. -/
theorem claim_C9_counterexample :
    (0, (⟨false, MediaType.Video, 10⟩ : StreamEntry)) ∈
      (initState [] [(0, ⟨false, MediaType.Video, 10⟩), (1, ⟨false, MediaType.Video, 5⟩)]
        [] none [] 0).streams ∧
    selectFirstVideoStream Status.Stopped
        (initState [] [(0, ⟨false, MediaType.Video, 10⟩), (1, ⟨false, MediaType.Video, 5⟩)]
          [] none [] 0) =
      Except.ok { initState [] [(0, ⟨false, MediaType.Video, 10⟩),
          (1, ⟨false, MediaType.Video, 5⟩)] [] none [] 0 with
        selected := some 1, connEvents := [ConnEvent.connect 1] } ∧
    some 1 ≠ (some 0 : Option Nat) := by
  refine ⟨by decide, rfl, by decide⟩

/-- C9 (amended): selectFirstVideoStream does nothing when no video stream
exists; otherwise it selects the video stream that is least in the
std::set's internal shared_ptr ordering, i.e. the one with the minimal
allocation address, which need not be the lowest container identifier. -/
theorem claim_C9_amended_select_first (status : Status) (st : DemuxState) :
    (getStreamsOfType MediaType.Video st = [] →
        selectFirstVideoStream status st = Except.ok st) ∧
    (∀ kv, minByAddr (getStreamsOfType MediaType.Video st) = some kv →
        selectFirstVideoStream status st = selectVideoStream status (some kv.1) st ∧
        kv ∈ st.streams ∧ kv.2.kind = MediaType.Video ∧
        ∀ x ∈ getStreamsOfType MediaType.Video st, kv.2.addr ≤ x.2.addr) := by
  constructor
  · intro h
    simp [selectFirstVideoStream, h, minByAddr]
  · intro kv h
    have hmem := minByAddr_mem _ kv h
    refine ⟨by simp [selectFirstVideoStream, h], ?_, ?_, minByAddr_le _ kv h⟩
    · exact (List.mem_filter.mp hmem).1
    · have h2 := (List.mem_filter.mp hmem).2
      simpa using h2

theorem claim_C9_amended_select_first_witness :
    selectFirstVideoStream Status.Stopped
        (initState [] [(0, ⟨false, MediaType.Video, 10⟩), (1, ⟨false, MediaType.Video, 5⟩)]
          [] none [] 0) =
      selectVideoStream Status.Stopped (some 1)
        (initState [] [(0, ⟨false, MediaType.Video, 10⟩), (1, ⟨false, MediaType.Video, 5⟩)]
          [] none [] 0) ∧
    selectFirstVideoStream Status.Stopped stIdle = Except.ok stIdle := by
  have h1 := claim_C9_amended_select_first Status.Stopped
    (initState [] [(0, ⟨false, MediaType.Video, 10⟩), (1, ⟨false, MediaType.Video, 5⟩)]
      [] none [] 0)
  have h2 := claim_C9_amended_select_first Status.Stopped stIdle
  exact ⟨(h1.2 (1, ⟨false, MediaType.Video, 5⟩) (by decide)).1, h2.1 (by decide)⟩

end Sfe
